import Mathlib

/- Verification of the pdfme-webservice core pipeline: input resolution for the
`/generate-pdf` routes, JSON metadata serialization and the embed/extract round
trip, the image-asset variant of the generate route, and the `/protokoll-pdf`
text normalization. The JavaScript semantics relevant to the routes (truthy
`||` fallbacks, object property assignment, `undefined` keys) is embedded
explicitly. -/

namespace PdfmeWS

/- JavaScript value helpers -/

/-- Truthiness of a possibly-absent JS string value: `undefined` and `""` are
falsy, every other string is truthy. -/
def truthyStr : Option String → Bool
  | none => false
  | some s => !s.isEmpty

/-- JS `a || b` for a possibly-absent string `a`: yields `b` when `a` is absent
(`undefined`) or the empty string. -/
def jsOrElse (a : Option String) (b : String) : String :=
  match a with
  | none => b
  | some s => if s.isEmpty then b else s

/-- JS object property assignment `obj[k] = v` on an insertion-ordered
association list: updates an existing entry in place, otherwise appends. -/
def objSet (obj : List (String × String)) (k v : String) : List (String × String) :=
  match obj with
  | [] => [(k, v)]
  | (k1, v1) :: rest => if k1 = k then (k, v) :: rest else (k1, v1) :: objSet rest k v

/-- The keys of a JS object modelled as an association list, in insertion order. -/
def objKeys (obj : List (String × String)) : List String := obj.map Prod.fst

/-- JS object property read `obj[k]`. -/
def objGet (obj : List (String × String)) (k : String) : Option String :=
  match obj with
  | [] => none
  | (k1, v1) :: rest => if k1 = k then some v1 else objGet rest k

/- Data model -/

/-- A template field (one element of `schemas[page]`) as consumed by the
generate routes: `name` may be absent (`undefined` in JS), `content` is the
field's default content, `src` is the remote reference of an image field.
Layout and style attributes play no role in resolution and are omitted. -/
structure Field where
  name : Option String
  type : String
  content : Option String
  src : Option String
deriving DecidableEq, Repr

/-- The JS property key used by `pageData[field.name]`: an `undefined` field
name is coerced to the string key `"undefined"`. -/
def keyOf (f : Field) : String := f.name.getD "undefined"

/-- The template object built by the route: `{ basePdf, schemas }`. -/
structure Template where
  basePdf : String
  schemas : List (List Field)
deriving DecidableEq, Repr

/- Input Resolver (src/index.js lines 114-128) -/

/-- `const mergedInputs = { ...inputs, ...req.query }`: a key present in the
query overrides the same key of the body-supplied inputs. -/
def mergeInputs (inputs query : String → Option String) : String → Option String :=
  fun k =>
    match query k with
    | some v => some v
    | none => inputs k

/-- `mergedInputs[field.name] || field.content || ''` (src/index.js line 125):
the supplied value if truthy, else the field default if truthy, else `""`. -/
def resolveValue (supplied content : Option String) : String :=
  jsOrElse supplied (jsOrElse content "")

/-- One page of resolution: `page.forEach(field => { pageData[field.name] = ... })`
starting from the empty object `{}`. -/
def resolvePage (merged : String → Option String) (page : List Field) :
    List (String × String) :=
  page.foldl (fun obj f => objSet obj (keyOf f) (resolveValue (merged (keyOf f)) f.content)) []

/-- `const templateInputs = schemas.map(page => ...)` (src/index.js lines 121-128). -/
def resolveInputs (schemas : List (List Field)) (merged : String → Option String) :
    List (List (String × String)) :=
  schemas.map (resolvePage merged)

/-- The structural check of the route (src/index.js lines 102-106):
`if (!basePdf || !schemas)` respond 400. Note that in JS an array is always
truthy, so a present-but-empty `schemas` array passes this check, and no other
structural validation is performed. -/
def validateTemplate (basePdf : Option String) (schemas : Option (List (List Field))) : Bool :=
  truthyStr basePdf && schemas.isSome

/- JSON serialization (JSON.stringify on string-valued objects) -/

/-- Hexadecimal digit used by `\u00XX` escapes. -/
def hexDigit (n : Nat) : Char :=
  if n < 10 then Char.ofNat (48 + n) else Char.ofNat (87 + n)

/-- The escape of one character inside a JSON string literal, as produced by
`JSON.stringify`. -/
def jsonEscapeChar (c : Char) : List Char :=
  if c = '"' then ['\\', '"']
  else if c = '\\' then ['\\', '\\']
  else if c = '\x08' then ['\\', 'b']
  else if c = '\t' then ['\\', 't']
  else if c = '\n' then ['\\', 'n']
  else if c = '\x0c' then ['\\', 'f']
  else if c = '\r' then ['\\', 'r']
  else if c.toNat < 32 then ['\\', 'u', '0', '0', hexDigit (c.toNat / 16), hexDigit (c.toNat % 16)]
  else [c]

/-- A JSON string literal: quote, escape every character, quote. -/
def jsonQuote (s : String) : String :=
  String.mk ('"' :: s.data.foldr (fun c acc => jsonEscapeChar c ++ acc) ['"'])

/-- `JSON.stringify` of a string-valued JS object, keys in insertion order
(src/index.js line 140 applies this to `templateInputs[0]`). -/
def jsonStringifyObj (obj : List (String × String)) : String :=
  "\x7b" ++ String.intercalate "," (obj.map (fun kv => jsonQuote kv.1 ++ ":" ++ jsonQuote kv.2)) ++ "\x7d"

/-- Modelled from the spec: `serialize(I)` of sections 4.4 and 8 — the stable
JSON serialization of the full per-page InputSet (the general array-of-pages
form of section 3), i.e. `JSON.stringify` of the array of page objects. The
repository code instead embeds `JSON.stringify(templateInputs[0])`, the first
page only; this definition exists to compare the two. -/
def serializeInputSet (inputs : List (List (String × String))) : String :=
  "[" ++ String.intercalate "," (inputs.map jsonStringifyObj) ++ "]"

/- Documents and bytes (pdf-lib and the rendering engine are external
collaborators; they are modelled from the spec) -/

/-- Modelled from the spec: a rendered document (sections 4.3-4.5) — opaque
visual content fully determined by the template and the resolved inputs, plus
the single string-valued subject metadata slot. -/
structure PdfDoc where
  body : Template × List (List (String × String))
  subject : Option String
deriving DecidableEq, Repr

/-- Modelled from the spec: document bytes (section 4.5) — bytes either parse
as a document or they do not; non-document bytes carry arbitrary content. -/
inductive Bytes where
  | doc (d : PdfDoc) : Bytes
  | garbage (raw : List Nat) : Bytes
deriving DecidableEq, Repr

/-- Modelled from the spec: pdf-lib `PDFDocument.load` — parses bytes into a
document, or fails when the bytes are not a parseable document. -/
def parsePdf : Bytes → Option PdfDoc
  | .doc d => some d
  | .garbage _ => none

/-- Modelled from the spec: pdf-lib `save` — serializes a document to bytes. -/
def savePdf (d : PdfDoc) : Bytes := .doc d

/-- Modelled from the spec: the external rendering engine (section 4.3),
consumed as an opaque deterministic `render(template, inputs)`; the fresh
document's subject slot is unset (the route writes it afterwards). -/
def render (t : Template) (inputs : List (List (String × String))) : PdfDoc :=
  { body := (t, inputs), subject := none }

/-- The error responses of the generate routes that matter to the claims:
the 400 structural-validation response. -/
inductive RouteError where
  | validation : RouteError
deriving DecidableEq, Repr

/-- The `/generate-pdf` route of src/index.js (lines 98-153): structural check,
merge of query over body inputs, per-page resolution, render, then set the
subject slot to `JSON.stringify(templateInputs[0])` and save. When `schemas`
is empty there is no first page and no subject string is produced. -/
def generatePdf (basePdf : Option String) (schemas : Option (List (List Field)))
    (inputs query : String → Option String) : Except RouteError Bytes :=
  if validateTemplate basePdf schemas then
    match basePdf, schemas with
    | some bp, some ss =>
      let merged := mergeInputs inputs query
      let templateInputs := resolveInputs ss merged
      let doc := render { basePdf := bp, schemas := ss } templateInputs
      let subj := templateInputs.head?.map jsonStringifyObj
      .ok (savePdf { doc with subject := subj })
    | _, _ => .error .validation
  else .error .validation

/-- Result of the `/extract-metadata` route body (src/index.js lines 297-314):
either the 400 parse-failure response, or the subject text. -/
inductive ExtractResult where
  | parseError : ExtractResult
  | ok (s : String) : ExtractResult
deriving DecidableEq, Repr

/-- The `/extract-metadata` route: load the bytes; when loading fails respond
400 (`Failed to parse PDF file`); otherwise respond `subject || ''`. -/
def extractMetadata (b : Bytes) : ExtractResult :=
  match parsePdf b with
  | none => .parseError
  | some d => .ok (jsOrElse d.subject "")

/- The image-capable `/generate-pdf` route (src/unnamed/part_001) -/

/-- `field.type === 'image' && field.src` (part_001 line 129). -/
def isImageWithSrc (f : Field) : Bool :=
  f.type = "image" && truthyStr f.src

/-- The single flattened inputs object at the moment `generate` is invoked in
the part_001 route: the handler body runs synchronously up to the
`await generate(...)`, so no `axios.get(...).then(...)` callback has run yet —
an image field with a `src` has started a fetch but assigned nothing, and every
other field has been assigned `mergedInputs[field.name] || field.content || ''`
(part_001 lines 124-150). -/
def inputsAtRender (schemas : List (List Field)) (merged : String → Option String) :
    List (String × String) :=
  schemas.foldl
    (fun acc page =>
      page.foldl
        (fun acc2 f =>
          if isImageWithSrc f then acc2
          else objSet acc2 (keyOf f) (resolveValue (merged (keyOf f)) f.content))
        acc)
    []

/-- The standard base64 alphabet. -/
def base64Alphabet : List Char :=
  "ABCDEFGHIJKLMNOPQRSTUVWXYZabcdefghijklmnopqrstuvwxyz0123456789+/".data

/-- The base64 digit for a 6-bit value. -/
def base64Char (n : Nat) : Char := base64Alphabet.getD n 'A'

/-- `Buffer.from(data).toString('base64')`: standard base64 with padding over a
byte list (part_001 line 134). -/
def base64Encode : List Nat → List Char
  | a :: b :: c :: rest =>
      base64Char (a % 256 / 4) :: base64Char (a % 4 * 16 + b % 256 / 16) ::
        base64Char (b % 16 * 4 + c % 256 / 64) :: base64Char (c % 64) :: base64Encode rest
  | [a, b] =>
      [base64Char (a % 256 / 4), base64Char (a % 4 * 16 + b % 256 / 16),
        base64Char (b % 16 * 4), '=']
  | [a] => [base64Char (a % 256 / 4), base64Char (a % 4 * 16), '=', '=']
  | [] => []

/-- The eventual value of `templateInputs[0][field.name]` contributed by one
field once every callback it started has run (part_001 lines 128-144): an image
field with a `src` gets the base64 of the fetched bytes from the `.then`, or
nothing at all when the fetch failed (the `.catch` only logs); every other
field gets `mergedInputs[field.name] || field.content || ''`. The `fetch`
argument models the network: `some bytes` on success, `none` on failure. -/
def eventualFieldValue (f : Field) (merged : String → Option String)
    (fetch : String → Option (List Nat)) : Option String :=
  if isImageWithSrc f then
    (f.src.bind fetch).map (fun bs => String.mk (base64Encode bs))
  else
    some (resolveValue (merged (keyOf f)) f.content)

/-- The flattened inputs object after all started callbacks have settled:
fields whose callback assigned nothing (failed image fetches) are absent. -/
def finalInputs (schemas : List (List Field)) (merged : String → Option String)
    (fetch : String → Option (List Nat)) : List (String × String) :=
  schemas.foldl
    (fun acc page =>
      page.foldl
        (fun acc2 f =>
          match eventualFieldValue f merged fetch with
          | some v => objSet acc2 (keyOf f) v
          | none => acc2)
        acc)
    []

/-- The `/generate-pdf` route of part_001 (lines 101-175): only `schemas` is
required; the template uses the built-in blank base PDF; `generate` is invoked
with the inputs as resolved at that moment, and image-fetch failures are
swallowed by the `.catch` (only logged), so the request still responds 200 with
a generated document. The subject is stringified after the render completes,
by which time settled callbacks may have filled image values in. -/
def generatePdfV2 (schemas : Option (List (List Field)))
    (inputs query : String → Option String) (fetch : String → Option (List Nat)) :
    Except RouteError Bytes :=
  match schemas with
  | none => .error .validation
  | some ss =>
    let merged := mergeInputs inputs query
    let atRender := inputsAtRender ss merged
    let doc := render { basePdf := "", schemas := ss } [atRender]
    .ok (savePdf { doc with subject := some (jsonStringifyObj (finalInputs ss merged fetch)) })

/- Text normalization of the `/protokoll-pdf` route (src/index.js lines 224-227) -/

/-- The whitespace stripped by JS `String.prototype.trim` (ASCII part): space,
tab, line feed, carriage return, vertical tab, form feed. -/
def isJsWS (c : Char) : Bool :=
  c = ' ' || c = '\t' || c = '\n' || c = '\r' || c = '\x0b' || c = '\x0c'

/-- `line.trim()`: strip leading and trailing whitespace. -/
def jsTrim (l : List Char) : List Char :=
  ((l.dropWhile isJsWS).reverse.dropWhile isJsWS).reverse

/-- Collapse every `"\r\n"` pair to `"\n"`; splitting the result on `'\n'`
agrees with `text.split(/\r?\n/)` (a CR only counts as part of a separator
when immediately followed by LF). -/
def collapseCRLF : List Char → List Char
  | [] => []
  | [c] => [c]
  | a :: b :: rest =>
      if a = '\r' ∧ b = '\n' then '\n' :: collapseCRLF rest
      else a :: collapseCRLF (b :: rest)

/-- Whether the list contains a carriage return immediately followed by a line
feed (the pair that `collapseCRLF` rewrites). -/
def hasCRLF : List Char → Bool
  | [] => false
  | [_] => false
  | a :: b :: rest => decide (a = '\r' ∧ b = '\n') || hasCRLF (b :: rest)

/-- Prepend a character to the first chunk of a split result. -/
def consHead (c : Char) : List (List Char) → List (List Char)
  | [] => [[c]]
  | l :: ls => (c :: l) :: ls

/-- Split on the line-feed character, keeping empty chunks (JS
`"a\n".split(...)` is `["a", ""]`). -/
def splitOnNL : List Char → List (List Char)
  | [] => [[]]
  | c :: rest => if c = '\n' then [] :: splitOnNL rest else consHead c (splitOnNL rest)

/-- `text.split(/\r?\n/)` (src/index.js line 225). -/
def splitLines (l : List Char) : List (List Char) :=
  splitOnNL (collapseCRLF l)

/-- `.join('\n')` (src/index.js line 227): concatenate the chunks with a
single line feed between consecutive chunks. -/
def joinNL : List (List Char) → List Char
  | [] => []
  | [l] => l
  | l :: l2 :: ls => l ++ '\n' :: joinNL (l2 :: ls)

/-- The processing of src/index.js lines 224-227: split into lines on any
line-ending convention, trim each line, rejoin with a single `'\n'`. -/
def processText (s : String) : String :=
  String.mk (joinNL ((splitLines s.data).map jsTrim))

/- Concrete request data used by counterexamples and witnesses -/

/-- The round-trip composition of the claims: generate (which renders and
embeds) and then extract the metadata; `none` when generation failed. -/
def roundtripSubject (basePdf : Option String) (schemas : Option (List (List Field)))
    (inputs query : String → Option String) : Option ExtractResult :=
  match generatePdf basePdf schemas inputs query with
  | .ok b => some (extractMetadata b)
  | .error _ => none

/-- An absent override source: no key is present. -/
def noOverrides : String → Option String := fun _ => none

/-- A two-page template: page one holds field `a` with default `1`, page two
holds field `b` with default `2`. -/
def twoPageSchemas : List (List Field) :=
  [[{ name := some "a", type := "text", content := some "1", src := none }],
   [{ name := some "b", type := "text", content := some "2", src := none }]]

/-- A field without a name (`name` is `undefined` in the request JSON). -/
def namelessField : Field :=
  { name := none, type := "text", content := some "x", src := none }

/-- A one-page template holding a single image field with a remote `src`. -/
def imageSchema : List (List Field) :=
  [[{ name := some "img", type := "image", content := some "default",
      src := some "http://example.com/logo.png" }]]

/- Helper lemmas -/

theorem isEmpty_false_of_ne (s : String) (h : s ≠ "") : s.isEmpty = false := by
  rw [Bool.eq_false_iff]
  intro hh
  exact h ((String.isEmpty_iff s).mp hh)

theorem jsOrElse_some_right_empty (s : String) : jsOrElse (some s) "" = s := by
  by_cases h : s = ""
  · subst h; rfl
  · simp [jsOrElse, isEmpty_false_of_ne s h]

theorem mem_objKeys_objSet (obj : List (String × String)) (k v n : String) :
    n ∈ objKeys (objSet obj k v) ↔ n ∈ objKeys obj ∨ n = k := by
  induction obj with
  | nil => simp [objSet, objKeys]
  | cons hd tl ih =>
    obtain ⟨k1, v1⟩ := hd
    by_cases h : k1 = k
    · subst h
      simp [objSet, objKeys, List.mem_cons]
      tauto
    · simp only [objSet, if_neg h, objKeys, List.map_cons, List.mem_cons]
      simp only [objKeys] at ih
      tauto

theorem nodup_objKeys_objSet (obj : List (String × String)) (k v : String)
    (h : (objKeys obj).Nodup) : (objKeys (objSet obj k v)).Nodup := by
  induction obj with
  | nil => simp [objSet, objKeys]
  | cons hd tl ih =>
    obtain ⟨k1, v1⟩ := hd
    simp only [objKeys, List.map_cons, List.nodup_cons] at h
    obtain ⟨h1, h2⟩ := h
    by_cases hk : k1 = k
    · subst hk
      have hset : objSet ((k1, v1) :: tl) k1 v = (k1, v) :: tl := by simp [objSet]
      rw [hset]
      simp only [objKeys, List.map_cons, List.nodup_cons]
      exact ⟨h1, h2⟩
    · simp only [objSet, if_neg hk, objKeys, List.map_cons, List.nodup_cons]
      refine ⟨?_, ih h2⟩
      intro hmem
      rcases (mem_objKeys_objSet tl k v k1).mp hmem with hin | heq
      · exact h1 hin
      · exact hk heq

theorem resolvePage_foldl_keys (merged : String → Option String) (page : List Field) :
    ∀ obj : List (String × String), (objKeys obj).Nodup →
      (objKeys (page.foldl
        (fun o f => objSet o (keyOf f) (resolveValue (merged (keyOf f)) f.content)) obj)).Nodup ∧
      ∀ n, n ∈ objKeys (page.foldl
          (fun o f => objSet o (keyOf f) (resolveValue (merged (keyOf f)) f.content)) obj) ↔
        n ∈ objKeys obj ∨ n ∈ page.map keyOf := by
  induction page with
  | nil => intro obj hobj; simpa using hobj
  | cons f fs ih =>
    intro obj hobj
    simp only [List.foldl_cons]
    have step := ih (objSet obj (keyOf f) (resolveValue (merged (keyOf f)) f.content))
      (nodup_objKeys_objSet obj _ _ hobj)
    refine ⟨step.1, ?_⟩
    intro n
    rw [step.2 n, mem_objKeys_objSet]
    simp only [List.map_cons, List.mem_cons]
    tauto

/- Claim theorems -/

/-- Claim C1: the resolved value of a field follows the precedence
query override > body input > field default > empty string: with default `"D"`,
body input `"B"` and query override `"Q"`, the resolved value is `"Q"` when all
three are present, `"B"` when only body input and default are present, `"D"`
when only the default is present, and `""` when none are present. -/
theorem C1_resolution_precedence (n : String) (inputs query : String → Option String) :
    (inputs n = some "B" → query n = some "Q" →
      resolveValue (mergeInputs inputs query n) (some "D") = "Q") ∧
    (inputs n = some "B" → query n = none →
      resolveValue (mergeInputs inputs query n) (some "D") = "B") ∧
    (inputs n = none → query n = none →
      resolveValue (mergeInputs inputs query n) (some "D") = "D") ∧
    (inputs n = none → query n = none →
      resolveValue (mergeInputs inputs query n) none = "") := by
  refine ⟨?_, ?_, ?_, ?_⟩ <;> intro h1 h2 <;>
    simp [mergeInputs, h1, h2, resolveValue, jsOrElse] <;> decide

/-- Witness for C1 at a concrete field name and concrete override maps. -/
theorem C1_resolution_precedence_witness :
    resolveValue (mergeInputs (fun _ => some "B") (fun _ => some "Q") "n") (some "D") = "Q" ∧
    resolveValue (mergeInputs (fun _ => some "B") (fun _ => none) "n") (some "D") = "B" ∧
    resolveValue (mergeInputs (fun _ => none) (fun _ => none) "n") (some "D") = "D" ∧
    resolveValue (mergeInputs (fun _ => none) (fun _ => none) "n") none = "" := by
  refine ⟨?_, ?_, ?_, ?_⟩
  · exact (C1_resolution_precedence "n" (fun _ => some "B") (fun _ => some "Q")).1 rfl rfl
  · exact (C1_resolution_precedence "n" (fun _ => some "B") (fun _ => none)).2.1 rfl rfl
  · exact (C1_resolution_precedence "n" (fun _ => none) (fun _ => none)).2.2.1 rfl rfl
  · exact (C1_resolution_precedence "n" (fun _ => none) (fun _ => none)).2.2.2 rfl rfl

/-- Claim C9: when the highest-precedence supplied value is the empty string,
the `||` chain falls through to the field default: a supplied empty string
never wins over a non-empty default. -/
theorem C9_empty_supplied_falls_back (n d : String) (inputs query : String → Option String)
    (hq : mergeInputs inputs query n = some "") (hd : d ≠ "") :
    resolveValue (mergeInputs inputs query n) (some d) = d := by
  rw [hq]
  have hb : ("" : String).isEmpty = true := rfl
  simp [resolveValue, jsOrElse, hb, isEmpty_false_of_ne d hd]

/-- Witness for C9: an explicit empty-string query override loses to the
default `"D"`. -/
theorem C9_empty_supplied_falls_back_witness :
    resolveValue (mergeInputs (fun _ => none) (fun _ => some "") "n") (some "D") = "D" :=
  C9_empty_supplied_falls_back "n" "D" (fun _ => none) (fun _ => some "") rfl (by decide)

/-- Claim C4: for every template and any combination of override sources,
resolution produces exactly one entry per field key per page — the per-page
output keys are exactly the field keys of that page, without duplicates, and
the resolved input set has one object per page. -/
theorem C4_one_entry_per_field_per_page (schemas : List (List Field))
    (merged : String → Option String) :
    resolveInputs schemas merged = schemas.map (resolvePage merged) ∧
    ∀ page : List Field,
      (objKeys (resolvePage merged page)).Nodup ∧
      ∀ n, n ∈ objKeys (resolvePage merged page) ↔ n ∈ page.map keyOf := by
  refine ⟨rfl, ?_⟩
  intro page
  have h := resolvePage_foldl_keys merged page [] (by simp [objKeys])
  refine ⟨h.1, ?_⟩
  intro n
  rw [resolvePage, h.2 n]
  simp [objKeys]

/-- Claim C5: the extractor responds with the parse failure exactly when the
bytes do not parse as a document, and a parseable document whose subject slot
was never set yields the empty string, not an error. -/
theorem C5_parse_error_iff_unparseable (b : Bytes) :
    (extractMetadata b = .parseError ↔ parsePdf b = none) ∧
    (∀ d : PdfDoc, parsePdf b = some d → d.subject = none → extractMetadata b = .ok "") := by
  constructor
  · cases b <;> simp [extractMetadata, parsePdf]
  · intro d hd hs
    cases b with
    | doc d2 =>
      simp only [parsePdf, Option.some.injEq] at hd
      subst hd
      simp [extractMetadata, parsePdf, hs, jsOrElse]
    | garbage raw => simp [parsePdf] at hd

/-- Witness for C5 at concrete bytes: unparseable bytes, and a subjectless
document. -/
theorem C5_parse_error_iff_unparseable_witness :
    (extractMetadata (Bytes.garbage []) = .parseError ↔ parsePdf (Bytes.garbage []) = none) ∧
    extractMetadata (Bytes.doc { body := ({ basePdf := "", schemas := [] }, []), subject := none })
      = .ok "" := by
  refine ⟨(C5_parse_error_iff_unparseable (Bytes.garbage [])).1, ?_⟩
  exact (C5_parse_error_iff_unparseable _).2 _ rfl rfl

/-- Claim C6 counterexample: a template with no pages and a template with a
nameless field both pass the route's structural check — the request is not
rejected with a validation error, and resolution proceeds (the nameless field
resolves under the string key `"undefined"`). -/
theorem C6_counterexample :
    validateTemplate (some "base") (some []) = true ∧
    (generatePdf (some "base") (some []) noOverrides noOverrides).isOk = true ∧
    validateTemplate (some "base") (some [[namelessField]]) = true ∧
    resolvePage noOverrides [namelessField] = [("undefined", "x")] := by
  decide

/-- Claim C6 amended: the route signals its 400 validation response exactly
when `basePdf` is falsy or `schemas` is absent; templates with an empty pages
list or with nameless fields are not rejected, and resolution proceeds totally
on them. -/
theorem C6_validation_checks_presence_only (basePdf : Option String)
    (schemas : Option (List (List Field))) (inputs query : String → Option String) :
    generatePdf basePdf schemas inputs query = .error .validation ↔
      (truthyStr basePdf = false ∨ schemas = none) := by
  by_cases h : validateTemplate basePdf schemas
  · have hand := h
    simp only [validateTemplate, Bool.and_eq_true] at hand
    obtain ⟨h1, h2⟩ := hand
    cases basePdf with
    | none => simp [truthyStr] at h1
    | some bp =>
      cases schemas with
      | none => simp at h2
      | some ss =>
        simp only [generatePdf, if_pos h]
        constructor
        · intro hh; exact absurd hh (by simp)
        · intro hh
          rcases hh with hh | hh
          · rw [h1] at hh; exact absurd hh (by simp)
          · exact absurd hh (by simp)
  · simp only [generatePdf, if_neg h]
    simp only [validateTemplate, Bool.and_eq_true, not_and] at h
    constructor
    · intro _
      by_cases hb : truthyStr basePdf = true
      · right
        have := h hb
        cases schemas with
        | none => rfl
        | some ss => simp at this
      · left; exact Bool.eq_false_iff.mpr hb
    · intro _; trivial

/-- Claim C3: at the moment the renderer is invoked, an image field with a
remote `src` is still unresolved — the fetch was started but not awaited, so
the inputs object handed to `generate` does not contain the field at all,
whatever override sources were supplied. -/
theorem C3_render_invoked_before_fetch_completes (merged : String → Option String) :
    inputsAtRender imageSchema merged = [] := rfl

/-- Claim C10: for an image field carrying a `src`, the eventual value comes
solely from the fetched asset (body inputs, query overrides and the field
default are never consulted — the same expression results for every choice of
them); when the fetch fails the field is absent both from the inputs at render
time and from the eventual inputs, while the request still responds with a
document and no error. -/
theorem C10_image_src_solely_from_fetch (nm content : Option String) (u : String)
    (hu : u ≠ "") (inputs query : String → Option String)
    (fetch : String → Option (List Nat)) :
    eventualFieldValue { name := nm, type := "image", content := content, src := some u }
        (mergeInputs inputs query) fetch
      = (fetch u).map (fun bs => String.mk (base64Encode bs)) ∧
    (fetch u = none →
      finalInputs [[{ name := nm, type := "image", content := content, src := some u }]]
          (mergeInputs inputs query) fetch = [] ∧
      inputsAtRender [[{ name := nm, type := "image", content := content, src := some u }]]
          (mergeInputs inputs query) = []) ∧
    (generatePdfV2 (some [[{ name := nm, type := "image", content := content, src := some u }]])
        inputs query fetch).isOk = true := by
  have himg : isImageWithSrc { name := nm, type := "image", content := content, src := some u }
      = true := by
    simp [isImageWithSrc, truthyStr, isEmpty_false_of_ne u hu]
  refine ⟨?_, ?_, ?_⟩
  · simp [eventualFieldValue, himg]
  · intro hf
    constructor
    · simp [finalInputs, eventualFieldValue, himg, hf]
    · simp [inputsAtRender, himg]
  · rfl

/-- Witness for C10 at a concrete image field, concrete override maps and a
failing fetch. -/
theorem C10_image_src_solely_from_fetch_witness :
    eventualFieldValue { name := some "img", type := "image", content := some "d", src := some "u" }
        (mergeInputs (fun _ => some "B") (fun _ => some "Q")) (fun _ => none)
      = ((fun (_ : String) => (none : Option (List Nat))) "u").map
          (fun bs => String.mk (base64Encode bs)) ∧
    (finalInputs [[{ name := some "img", type := "image", content := some "d", src := some "u" }]]
        (mergeInputs (fun _ => some "B") (fun _ => some "Q")) (fun _ => none) = [] ∧
      inputsAtRender [[{ name := some "img", type := "image", content := some "d", src := some "u" }]]
        (mergeInputs (fun _ => some "B") (fun _ => some "Q")) = []) ∧
    (generatePdfV2 (some [[{ name := some "img", type := "image", content := some "d", src := some "u" }]])
        (fun _ => some "B") (fun _ => some "Q") (fun _ => none)).isOk = true := by
  have h := C10_image_src_solely_from_fetch (some "img") (some "d") "u" (by decide)
    (fun _ => some "B") (fun _ => some "Q") (fun _ => none)
  exact ⟨h.1, h.2.1 rfl, h.2.2⟩

/-- Claim C2 counterexample: on a two-page template the produced document's
recovered metadata is the JSON of the first page's values only, not the stable
serialization of the whole two-page InputSet. -/
theorem C2_counterexample :
    roundtripSubject (some "base") (some twoPageSchemas) noOverrides noOverrides ≠
      some (.ok (serializeInputSet
        (resolveInputs twoPageSchemas (mergeInputs noOverrides noOverrides)))) := by
  decide

/-- Claim C2 amended: the round trip recovers exactly the JSON serialization of
the first page of the resolved InputSet — for single-page InputSets this is the
serialization of the whole InputSet, while later pages are never embedded. -/
theorem C2_roundtrip_recovers_first_page (bp : String) (hbp : bp ≠ "") (p : List Field)
    (rest : List (List Field)) (inputs query : String → Option String) :
    roundtripSubject (some bp) (some (p :: rest)) inputs query
      = some (.ok (jsonStringifyObj (resolvePage (mergeInputs inputs query) p))) := by
  simp [roundtripSubject, generatePdf, validateTemplate, truthyStr,
    isEmpty_false_of_ne bp hbp, resolveInputs, savePdf, extractMetadata, parsePdf,
    render, jsOrElse_some_right_empty]

/- Lemmas for the text-normalization claim -/

theorem consHead_ne_nil (c : Char) (ls : List (List Char)) : consHead c ls ≠ [] := by
  cases ls <;> simp [consHead]

theorem splitOnNL_ne_nil (l : List Char) : splitOnNL l ≠ [] := by
  induction l with
  | nil => simp [splitOnNL]
  | cons c rest ih =>
    by_cases h : c = '\n'
    · simp [splitOnNL, h]
    · simp only [splitOnNL, if_neg h]
      exact consHead_ne_nil c _

theorem no_newline_of_mem_splitOnNL (l : List Char) :
    ∀ s ∈ splitOnNL l, '\n' ∉ s := by
  induction l with
  | nil =>
    intro s hs
    simp only [splitOnNL, List.mem_singleton] at hs
    subst hs
    simp
  | cons c rest ih =>
    intro s hs
    simp only [splitOnNL] at hs
    by_cases h : c = '\n'
    · rw [if_pos h] at hs
      rcases List.mem_cons.mp hs with h1 | h1
      · subst h1; simp
      · exact ih s h1
    · rw [if_neg h] at hs
      rcases hsplit : splitOnNL rest with _ | ⟨hd, tl⟩
      · exact absurd hsplit (splitOnNL_ne_nil rest)
      · rw [hsplit] at hs
        simp only [consHead] at hs
        rcases List.mem_cons.mp hs with h1 | h1
        · subst h1
          intro hmem
          rcases List.mem_cons.mp hmem with h2 | h2
          · exact h h2.symm
          · exact ih hd (by rw [hsplit]; exact List.mem_cons_self hd tl) h2
        · exact ih s (by rw [hsplit]; exact List.mem_cons.mpr (Or.inr h1))

theorem splitOnNL_append (l m : List Char) (hd : List Char) (tl : List (List Char))
    (hl : '\n' ∉ l) (hm : splitOnNL m = hd :: tl) :
    splitOnNL (l ++ m) = (l ++ hd) :: tl := by
  induction l with
  | nil => simpa using hm
  | cons c l2 ih =>
    have hc : ¬ c = '\n' := by intro hh; exact hl (by simp [hh])
    have hl2 : '\n' ∉ l2 := fun hh => hl (List.mem_cons.mpr (Or.inr hh))
    simp only [List.cons_append, splitOnNL, if_neg hc, List.append_eq]
    rw [ih hl2]
    simp [consHead]

theorem splitOnNL_joinNL (L : List (List Char)) (hne : L ≠ [])
    (h : ∀ s ∈ L, '\n' ∉ s) : splitOnNL (joinNL L) = L := by
  induction L with
  | nil => exact absurd rfl hne
  | cons l L2 ih =>
    cases L2 with
    | nil =>
      have h0 : '\n' ∉ l := h l (by simp)
      have hbase := splitOnNL_append l [] [] [] h0 (by simp [splitOnNL])
      simpa [joinNL] using hbase
    | cons l2 L3 =>
      have h0 : '\n' ∉ l := h l (by simp)
      have hrec := ih (by simp) (fun s hs => h s (List.mem_cons.mpr (Or.inr hs)))
      have hm : splitOnNL ('\n' :: joinNL (l2 :: L3)) = [] :: l2 :: L3 := by
        simp only [splitOnNL, if_true]
        rw [hrec]
      have happ := splitOnNL_append l ('\n' :: joinNL (l2 :: L3)) [] (l2 :: L3) h0 hm
      simpa [joinNL] using happ

theorem hasCRLF_cons_nl (m : List Char) : hasCRLF ('\n' :: m) = hasCRLF m := by
  cases m with
  | nil => rfl
  | cons d t => simp [hasCRLF]

theorem no_newline_hasCRLF_false (l : List Char) (h : '\n' ∉ l) : hasCRLF l = false := by
  induction l with
  | nil => rfl
  | cons c tail ih =>
    cases tail with
    | nil => rfl
    | cons d t2 =>
      have hd : ¬ d = '\n' := by intro hh; exact h (by simp [hh])
      have ht : '\n' ∉ d :: t2 := fun hh => h (List.mem_cons.mpr (Or.inr hh))
      simp only [hasCRLF, ih ht, Bool.or_false, decide_eq_false_iff_not]
      rintro ⟨-, hdd⟩
      exact hd hdd

theorem hasCRLF_append_nl (l m : List Char) (hl : '\n' ∉ l)
    (hlast : l.getLast? ≠ some '\r') (hm : hasCRLF ('\n' :: m) = false) :
    hasCRLF (l ++ '\n' :: m) = false := by
  induction l with
  | nil => simpa using hm
  | cons c tail ih =>
    cases tail with
    | nil =>
      have hc : ¬ c = '\r' := by intro hh; exact hlast (by simp [hh])
      simp only [List.cons_append, List.nil_append, hasCRLF, hm, Bool.or_false,
        decide_eq_false_iff_not]
      rintro ⟨hcc, -⟩
      exact hc hcc
    | cons d t2 =>
      have hd : ¬ d = '\n' := by intro hh; exact hl (by simp [hh])
      have htail : '\n' ∉ d :: t2 := fun hh => hl (List.mem_cons.mpr (Or.inr hh))
      have hlast2 : (d :: t2).getLast? ≠ some '\r' := by
        rwa [List.getLast?_cons_cons] at hlast
      have hrec := ih htail hlast2
      simp only [List.cons_append] at hrec ⊢
      simp only [hasCRLF, hrec, Bool.or_false, decide_eq_false_iff_not]
      rintro ⟨-, hdd⟩
      exact hd hdd

theorem hasCRLF_joinNL (L : List (List Char)) (h1 : ∀ s ∈ L, '\n' ∉ s)
    (h2 : ∀ s ∈ L, s.getLast? ≠ some '\r') : hasCRLF (joinNL L) = false := by
  induction L with
  | nil => rfl
  | cons l L2 ih =>
    cases L2 with
    | nil => exact no_newline_hasCRLF_false l (h1 l (by simp))
    | cons l2 L3 =>
      have hrec := ih (fun s hs => h1 s (List.mem_cons.mpr (Or.inr hs)))
        (fun s hs => h2 s (List.mem_cons.mpr (Or.inr hs)))
      show hasCRLF (joinNL (l :: l2 :: L3)) = false
      simp only [joinNL]
      apply hasCRLF_append_nl l _ (h1 l (by simp)) (h2 l (by simp))
      rw [hasCRLF_cons_nl]
      exact hrec

theorem collapseCRLF_eq_self (l : List Char) (h : hasCRLF l = false) :
    collapseCRLF l = l := by
  induction l with
  | nil => rfl
  | cons c tail ih =>
    cases tail with
    | nil => rfl
    | cons d t2 =>
      simp only [hasCRLF, Bool.or_eq_false_iff, decide_eq_false_iff_not] at h
      obtain ⟨hnot, hrest⟩ := h
      simp only [collapseCRLF, if_neg hnot]
      rw [ih hrest]

theorem head?_dropWhile_not (p : Char → Bool) (l : List Char) (c : Char)
    (h : (l.dropWhile p).head? = some c) : p c = false := by
  induction l with
  | nil => simp [List.dropWhile] at h
  | cons a t ih =>
    by_cases hp : p a
    · rw [List.dropWhile_cons, if_pos hp] at h
      exact ih h
    · rw [List.dropWhile_cons, if_neg hp] at h
      simp only [List.head?_cons, Option.some.injEq] at h
      subst h
      exact Bool.eq_false_iff.mpr hp

theorem mem_jsTrim_subset (l : List Char) (c : Char) (h : c ∈ jsTrim l) : c ∈ l := by
  unfold jsTrim at h
  rw [List.mem_reverse] at h
  have h2 := (List.dropWhile_suffix isJsWS).subset h
  rw [List.mem_reverse] at h2
  exact (List.dropWhile_suffix isJsWS).subset h2

theorem getLast?_jsTrim_not_ws (l : List Char) (c : Char)
    (h : (jsTrim l).getLast? = some c) : isJsWS c = false := by
  unfold jsTrim at h
  rw [List.getLast?_reverse] at h
  exact head?_dropWhile_not isJsWS _ c h

theorem dropWhile_eq_self_of_head (p : Char → Bool) (l : List Char)
    (h : ∀ c, l.head? = some c → p c = false) : l.dropWhile p = l := by
  cases l with
  | nil => rfl
  | cons a t =>
    rw [List.dropWhile_cons, if_neg]
    simp [h a rfl]

theorem head?_of_isPrefix {l1 l2 : List Char} (h : l1 <+: l2) (c : Char)
    (hc : l1.head? = some c) : l2.head? = some c := by
  obtain ⟨t, rfl⟩ := h
  cases l1 with
  | nil => simp at hc
  | cons a r => simpa using hc

theorem jsTrim_isPrefix_dropWhile (l : List Char) :
    jsTrim l <+: l.dropWhile isJsWS := by
  have h : List.dropWhile isJsWS ((l.dropWhile isJsWS).reverse) <:+
      (l.dropWhile isJsWS).reverse :=
    List.dropWhile_suffix isJsWS
  have h2 := List.reverse_prefix.mpr h
  rw [List.reverse_reverse] at h2
  exact h2

theorem jsTrim_idem (l : List Char) : jsTrim (jsTrim l) = jsTrim l := by
  have hstep1 : (jsTrim l).dropWhile isJsWS = jsTrim l := by
    apply dropWhile_eq_self_of_head
    intro c hc
    exact head?_dropWhile_not isJsWS l c (head?_of_isPrefix (jsTrim_isPrefix_dropWhile l) c hc)
  have hrev : (jsTrim l).reverse = (l.dropWhile isJsWS).reverse.dropWhile isJsWS := by
    unfold jsTrim
    rw [List.reverse_reverse]
  have hstep2 : ((l.dropWhile isJsWS).reverse.dropWhile isJsWS).dropWhile isJsWS
      = (l.dropWhile isJsWS).reverse.dropWhile isJsWS := by
    apply dropWhile_eq_self_of_head
    intro c hc
    exact head?_dropWhile_not isJsWS _ c hc
  show (((jsTrim l).dropWhile isJsWS).reverse.dropWhile isJsWS).reverse = jsTrim l
  rw [hstep1, hrev, hstep2]
  rfl

/-- Claim C8: the text normalization of the protokoll route — split on any
line-ending convention, trim each line, rejoin with a single newline — is
idempotent: normalizing already-normalized text returns it unchanged. -/
theorem C8_normalization_idempotent (s : String) :
    processText (processText s) = processText s := by
  unfold processText
  congr 1
  show joinNL ((splitLines (joinNL ((splitLines s.data).map jsTrim))).map jsTrim)
      = joinNL ((splitLines s.data).map jsTrim)
  have hno : ∀ t ∈ (splitLines s.data).map jsTrim, '\n' ∉ t := by
    intro t ht
    obtain ⟨t0, ht0, rfl⟩ := List.mem_map.mp ht
    intro hc
    simp only [splitLines] at ht0
    exact no_newline_of_mem_splitOnNL (collapseCRLF s.data) t0 ht0 (mem_jsTrim_subset t0 '\n' hc)
  have hlast : ∀ t ∈ (splitLines s.data).map jsTrim, t.getLast? ≠ some '\r' := by
    intro t ht hcon
    obtain ⟨t0, ht0, rfl⟩ := List.mem_map.mp ht
    have hws := getLast?_jsTrim_not_ws t0 '\r' hcon
    simp [isJsWS] at hws
  have hne : (splitLines s.data).map jsTrim ≠ [] := by
    simp only [ne_eq, List.map_eq_nil_iff, splitLines]
    exact splitOnNL_ne_nil _
  have hsplit : splitLines (joinNL ((splitLines s.data).map jsTrim))
      = (splitLines s.data).map jsTrim := by
    show splitOnNL (collapseCRLF (joinNL ((splitLines s.data).map jsTrim)))
        = (splitLines s.data).map jsTrim
    rw [collapseCRLF_eq_self _ (hasCRLF_joinNL _ hno hlast)]
    exact splitOnNL_joinNL _ hne hno
  rw [hsplit]
  congr 1
  rw [List.map_map]
  apply List.map_congr_left
  intro a _
  exact jsTrim_idem a

/-- Witness for the amended C2 at a concrete single-page template. -/
theorem C2_roundtrip_recovers_first_page_witness :
    roundtripSubject (some "base")
        (some [[{ name := some "a", type := "text", content := some "1", src := none }]])
        noOverrides noOverrides
      = some (.ok (jsonStringifyObj (resolvePage (mergeInputs noOverrides noOverrides)
          [{ name := some "a", type := "text", content := some "1", src := none }]))) :=
  C2_roundtrip_recovers_first_page "base" (by decide) _ _ _ _

end PdfmeWS
